import Mathlib

/-!
Verification development for the rest-layer-mongo storage handler.

The definitions below are a shallow embedding of the repository's Go code:
the query/sort translator (`query.go`), the item codec and the CRUD handler
(`mongo.go`).  Store-side behaviour (document matching, sorting, windowing)
is modelled after the documented semantics of MongoDB/mgo at the boundary.
-/

set_option autoImplicit false

namespace RLMongo

/-- Dynamic Go value (`interface{}`) as stored in payloads and filters. -/
inductive Value where
  | vNull
  | vInt (n : Int)
  | vStr (s : String)
  | vBool (b : Bool)
  | vDoc (fields : List (String × Value))
  | vArr (elems : List Value)

/-- BSON comparison rank of a value (Null < Numbers < String < Object < Array < Boolean). -/
def valRank : Value → Nat
  | .vNull => 0
  | .vInt _ => 1
  | .vStr _ => 2
  | .vDoc _ => 3
  | .vArr _ => 4
  | .vBool _ => 5

mutual

/-- Total comparison on dynamic values, following the BSON comparison order. -/
def valCompare : Value → Value → Ordering
  | .vInt a, .vInt b => compare a b
  | .vStr a, .vStr b => compare a b
  | .vBool a, .vBool b => compare a b
  | .vDoc a, .vDoc b => valPairsCompare a b
  | .vArr a, .vArr b => valListCompare a b
  | a, b => compare (valRank a) (valRank b)

def valListCompare : List Value → List Value → Ordering
  | [], [] => .eq
  | [], _ :: _ => .lt
  | _ :: _, [] => .gt
  | a :: as, b :: bs =>
    match valCompare a b with
    | .eq => valListCompare as bs
    | o => o

def valPairsCompare : List (String × Value) → List (String × Value) → Ordering
  | [], [] => .eq
  | [], _ :: _ => .lt
  | _ :: _, [] => .gt
  | (k, a) :: as, (l, b) :: bs =>
    match compare k l with
    | .eq =>
      match valCompare a b with
      | .eq => valPairsCompare as bs
      | o => o
    | o => o

end

/-- Value equality as decided by the store (via the comparison order). -/
def valBEq (a b : Value) : Bool := valCompare a b == .eq

/-- The assignment `m[k] = v` on a Go map modelled as an association list: replace the
existing binding in place, or append a new one. -/
def setKey {α : Type} : List (String × α) → String → α → List (String × α)
  | [], k, v => [(k, v)]
  | (k1, v1) :: rest, k, v =>
    if k1 == k then (k, v) :: rest else (k1, v1) :: setKey rest k v

/-- Go map lookup. -/
def lookupKey {α : Type} : List (String × α) → String → Option α
  | [], _ => none
  | (k1, v1) :: rest, k => if k1 == k then some v1 else lookupKey rest k

/-- The Go loop `for k, v := range src \x7b dst[k] = v \x7d`. -/
def mergeKeys {α : Type} (dst src : List (String × α)) : List (String × α) :=
  src.foldl (fun acc p => setKey acc p.1 p.2) dst

/-- A BSON value as built by the translator: a passed-through Go value, a
nested operator document (`bson.M`), or an array of documents (`[]bson.M`). -/
inductive BsonVal where
  | prim (v : Value)
  | op (m : List (String × BsonVal))
  | docs (l : List (List (String × BsonVal)))

/-- The type `bson.M`, modelled as an association list. -/
abbrev BsonM := List (String × BsonVal)

/-- The predicate expression tree (`schema/query` node kinds handled by
`translatePredicate`, plus a catch-all for any other expression kind, which
the translator's `default` case rejects). -/
inductive Expr where
  | and (ops : List Expr)
  | or (ops : List Expr)
  | subPred (exps : List Expr)
  | elemMatch (field : String) (exps : List Expr)
  | inOp (field : String) (values : List Value)
  | ninOp (field : String) (values : List Value)
  | exist (field : String)
  | notExist (field : String)
  | eq (field : String) (value : Value)
  | ne (field : String) (value : Value)
  | gt (field : String) (value : Value)
  | gte (field : String) (value : Value)
  | lt (field : String) (value : Value)
  | lte (field : String) (value : Value)
  | regex (field : String) (pattern : String)
  | unsupported

/-- Error sentinels surfaced by the handler (`resource` errors, context
errors, and opaque store errors). -/
inductive Err where
  | notImplemented
  | notFound
  | conflict
  | canceled
  | deadlineExceeded
  | store (msg : String)
  deriving DecidableEq

/-- A context error observed by `ctx.Err()`. -/
inductive CtxErr where
  | canceled
  | deadlineExceeded
  deriving DecidableEq

/-- The handler returns a context error unchanged. -/
def Err.ofCtx : CtxErr → Err
  | .canceled => .canceled
  | .deadlineExceeded => .deadlineExceeded

/-- Go's `strings.HasPrefix(s, "p-")`: does the ETag carry the provisional tag?
(Stated over the character list so that it evaluates by kernel reduction.) -/
def provisionalTag (s : String) : Bool :=
  match s.data with
  | 'p' :: '-' :: _ => true
  | _ => false

/-- Source `getField`: translate a schema field into a MongoDB field
(`id` is rewritten to the mongo primary key `_id`). -/
def getField (f : String) : String :=
  if f == "id" then "_id" else f

mutual

/-- One iteration of `translatePredicate`'s loop: add the filter entries of a
single expression to the accumulated `bson.M`.

The `subPred` branch is not present in the revision of `translatePredicate`
kept under source; it is Modelled from the spec: the current translator
revision (whose tests are in the repository) first collapses an operand that
is itself a list of bare expressions into one filter document, its fields
merged, before use. -/
def translateStep (b : BsonM) : Expr → Except Err BsonM
  | .and ops => do
    let s ← translateOperands ops
    pure (setKey b "$and" (.docs s))
  | .or ops => do
    let s ← translateOperands ops
    pure (setKey b "$or" (.docs s))
  | .subPred exps => do
    let sb ← translateList [] exps
    pure (mergeKeys b sb)
  | .elemMatch f exps => do
    let s ← translateMerge [] exps
    pure (setKey b (getField f) (.op [("$elemMatch", .op s)]))
  | .inOp f vs => pure (setKey b (getField f) (.op [("$in", .prim (.vArr vs))]))
  | .ninOp f vs => pure (setKey b (getField f) (.op [("$nin", .prim (.vArr vs))]))
  | .exist f => pure (setKey b (getField f) (.op [("$exists", .prim (.vBool true))]))
  | .notExist f => pure (setKey b (getField f) (.op [("$exists", .prim (.vBool false))]))
  | .eq f v => pure (setKey b (getField f) (.prim v))
  | .ne f v => pure (setKey b (getField f) (.op [("$ne", .prim v)]))
  | .gt f v => pure (setKey b (getField f) (.op [("$gt", .prim v)]))
  | .gte f v => pure (setKey b (getField f) (.op [("$gte", .prim v)]))
  | .lt f v => pure (setKey b (getField f) (.op [("$lt", .prim v)]))
  | .lte f v => pure (setKey b (getField f) (.op [("$lte", .prim v)]))
  | .regex f pat => pure (setKey b (getField f) (.op [("$regex", .prim (.vStr pat))]))
  | .unsupported => throw .notImplemented

/-- The And/Or branches: each operand is translated independently as a
singleton predicate, aborting on the first error. -/
def translateOperands : List Expr → Except Err (List BsonM)
  | [] => pure []
  | e :: rest => do
    let sb ← translateStep [] e
    let s ← translateOperands rest
    pure (sb :: s)

/-- The ElemMatch branch: each sub-expression is translated as a singleton
predicate and its fields are merged into one sub-document. -/
def translateMerge (s : BsonM) : List Expr → Except Err BsonM
  | [] => pure s
  | e :: rest => do
    let sb ← translateStep [] e
    translateMerge (mergeKeys s sb) rest

/-- The loop of `translatePredicate` over the expression list. -/
def translateList (b : BsonM) : List Expr → Except Err BsonM
  | [] => pure b
  | e :: rest => do
    let b2 ← translateStep b e
    translateList b2 rest

end

/-- Source `translatePredicate`: transform a predicate into a Mongo filter document. -/
def translatePredicate (q : List Expr) : Except Err BsonM :=
  translateList [] q

/-- A sort entry (`query.Sort` element). -/
structure SortField where
  name : String
  reversed : Bool

/-- The window `query.Window`. -/
structure Window where
  offset : Int
  limit : Int

/-- The query `query.Query` (predicate + sort + optional window). -/
structure Query where
  predicate : List Expr
  sort : List SortField
  window : Option Window

/-- Source `getQuery`: transform a query into a Mongo query. -/
def getQuery (q : Query) : Except Err BsonM :=
  translatePredicate q.predicate

/-- Source `getSort`: transform a query into a Mongo sort list; if the sort list is
empty, fall back to `_id`. -/
def getSort (q : Query) : List String :=
  if q.sort.length == 0 then ["_id"]
  else q.sort.map fun sort =>
    if sort.reversed then "-" ++ getField sort.name else getField sort.name

/-! ## Item codec (`mongoItem`, `newMongoItem`, `newItem`) -/

/-- The item type `resource.Item`. -/
structure Item where
  id : Value
  etag : String
  updated : Int
  payload : List (String × Value)

/-- Source `mongoItem`: the BSON representation of an item (`_id`, `_etag`,
`_updated`, payload inline). -/
structure MongoItem where
  id : Value
  etag : String
  updated : Int
  payload : List (String × Value)

/-- Source `newMongoItem`: converts an item into a mongoItem, filtering `id` out of
the payload so the identifier is not stored twice. -/
def newMongoItem (i : Item) : MongoItem :=
  { id := i.id, etag := i.etag, updated := i.updated
    payload := i.payload.filter fun p => !(p.1 == "id") }

/-- Go's `fmt.Sprint` on a dynamic value (only its use for provisional ETags is
relevant here). -/
def fmtSprint : Value → String
  | .vNull => "<nil>"
  | .vInt n => toString n
  | .vStr s => s
  | .vBool b => if b then "true" else "false"
  | .vDoc _ => "map"
  | .vArr _ => "list"

/-- Source `newItem`: converts a mongoItem back into an item, re-adding the
identifier under the payload's `id` key and synthesizing a provisional
`p-`-tagged ETag when no explicit one is stored. -/
def newItem (i : MongoItem) : Item :=
  let payload := setKey i.payload "id" i.id
  let item : Item := { id := i.id, etag := i.etag, updated := i.updated, payload := payload }
  if item.etag == "" then { item with etag := "p-" ++ fmtSprint i.id } else item

/-! ## Store model

A stored document: the reserved `_id`, `_etag`, `_updated` fields plus the
inlined payload.  `_etag` is optional: documents written by other tools may
lack it (the provisional-ETag legacy path). -/

structure MDoc where
  id : Value
  etag : Option String
  updated : Int
  payload : List (String × Value)

/-- The document a mongoItem is stored as. -/
def MongoItem.toDoc (m : MongoItem) : MDoc :=
  { id := m.id, etag := some m.etag, updated := m.updated, payload := m.payload }

/-- Decoding a stored document into a mongoItem (a missing `_etag` decodes to
the empty string). -/
def MDoc.toMongoItem (d : MDoc) : MongoItem :=
  { id := d.id, etag := d.etag.getD "", updated := d.updated, payload := d.payload }

/-- Field access on a stored document. -/
def MDoc.fieldVal (d : MDoc) (f : String) : Option Value :=
  if f == "_id" then some d.id
  else if f == "_etag" then d.etag.map Value.vStr
  else if f == "_updated" then some (Value.vInt d.updated)
  else lookupKey d.payload f

/-! ## Store-side filter semantics

The MongoDB matching semantics for exactly the operators the translator
emits, parameterized by the store's regular-expression engine `rm`
(`rm pattern s` decides whether `s` matches `pattern`).  An equality test
against `null` also matches a missing field, per MongoDB's documented
behaviour. -/

/-- Equality of a (possibly missing) field value with a filter value. -/
def fieldEq (fv : Option Value) (v : Value) : Bool :=
  match fv with
  | some w => valBEq w v
  | none => valBEq .vNull v

/-- Iteration over an array field's elements: does any sub-document element
satisfy the predicate? (The `$elemMatch` element loop.) -/
def anyDocElem (p : List (String × Value) → Bool) : List Value → Bool
  | [] => false
  | .vDoc m :: rest => p m || anyDocElem p rest
  | _ :: rest => anyDocElem p rest

mutual

/-- Does a document (given by its field-access function) satisfy a filter? -/
def matchM (rm : String → String → Bool) (fv : String → Option Value) : BsonM → Bool
  | [] => true
  | (k, v) :: rest => matchEntry rm fv k v && matchM rm fv rest

def matchEntry (rm : String → String → Bool) (fv : String → Option Value)
    (k : String) : BsonVal → Bool
  | .prim v => fieldEq (fv k) v
  | .op m => matchOps rm fv k m
  | .docs l =>
    if k == "$and" then matchAll rm fv l
    else if k == "$or" then matchAny rm fv l
    else false

def matchAll (rm : String → String → Bool) (fv : String → Option Value) :
    List BsonM → Bool
  | [] => true
  | m :: rest => matchM rm fv m && matchAll rm fv rest

def matchAny (rm : String → String → Bool) (fv : String → Option Value) :
    List BsonM → Bool
  | [] => false
  | m :: rest => matchM rm fv m || matchAny rm fv rest

def matchOps (rm : String → String → Bool) (fv : String → Option Value)
    (f : String) : List (String × BsonVal) → Bool
  | [] => true
  | (o, arg) :: rest => matchOp rm fv f o arg && matchOps rm fv f rest

def matchOp (rm : String → String → Bool) (fv : String → Option Value)
    (f : String) (o : String) : BsonVal → Bool
  | .prim v =>
    if o == "$ne" then !(fieldEq (fv f) v)
    else if o == "$gt" then
      match fv f with
      | some w => valCompare w v == .gt
      | none => false
    else if o == "$gte" then
      match fv f with
      | some w => valCompare w v != .lt
      | none => false
    else if o == "$lt" then
      match fv f with
      | some w => valCompare w v == .lt
      | none => false
    else if o == "$lte" then
      match fv f with
      | some w => valCompare w v != .gt
      | none => false
    else if o == "$in" then
      match v with
      | .vArr vs => vs.any fun x => fieldEq (fv f) x
      | _ => false
    else if o == "$nin" then
      match v with
      | .vArr vs => !(vs.any fun x => fieldEq (fv f) x)
      | _ => false
    else if o == "$exists" then
      match v with
      | .vBool b => (fv f).isSome == b
      | _ => false
    else if o == "$regex" then
      match v, fv f with
      | .vStr pat, some (.vStr s) => rm pat s
      | _, _ => false
    else false
  | .op sub =>
    if o == "$elemMatch" then
      match fv f with
      | some (.vArr elems) =>
        anyDocElem (fun m => matchM rm (fun f2 => lookupKey m f2) sub) elems
      | _ => false
    else false
  | .docs _ => false

end

/-- Whether a stored document matches a filter. -/
def matchDoc (rm : String → String → Bool) (qry : BsonM) (d : MDoc) : Bool :=
  matchM rm d.fieldVal qry

/-! ## Store-side sort and window semantics (mgo cursor behaviour) -/

/-- Does a sort key carry the leading descending marker `-`? -/
def descMark (k : String) : Bool :=
  match k.data with
  | '-' :: _ => true
  | _ => false

/-- Strip the leading descending marker from a sort key. -/
def stripMark (k : String) : String :=
  ⟨k.data.drop 1⟩

/-- Compare two documents under an mgo sort-field list (a leading `-` marks a
descending key; a missing field sorts as null). -/
def sortCmp (d1 d2 : MDoc) : List String → Ordering
  | [] => .eq
  | k :: rest =>
    let desc := descMark k
    let f := if desc then stripMark k else k
    let v1 := (d1.fieldVal f).getD .vNull
    let v2 := (d2.fieldVal f).getD .vNull
    let o := if desc then valCompare v2 v1 else valCompare v1 v2
    match o with
    | .eq => sortCmp d1 d2 rest
    | o => o

/-- Insert a document into an already-sorted list (stable). -/
def insSorted (keys : List String) (d : MDoc) : List MDoc → List MDoc
  | [] => [d]
  | x :: xs =>
    if sortCmp d x keys == .gt then x :: insSorted keys d xs else d :: x :: xs

/-- The store's deterministic sort of a result set. -/
def sortDocs (keys : List String) (docs : List MDoc) : List MDoc :=
  docs.foldr (insSorted keys) []

/-- The mgo cursor limit: MongoDB returns all records on limit 0
(`cursor.limit` zero value means "no limit"). -/
def mgoLimit (n : Int) (docs : List MDoc) : List MDoc :=
  if n == 0 then docs else docs.take n.natAbs

/-- Source `applyWindow`: skip `offset` when positive, set the cursor limit when
`limit > -1`. -/
def applyWindow (w : Window) (docs : List MDoc) : List MDoc :=
  let d1 := if w.offset > 0 then docs.drop w.offset.toNat else docs
  if w.limit > -1 then mgoLimit w.limit d1 else d1

/-- Execution of `c.Find(qry).Sort(srt...)` with an optional window: the
matching documents, sorted, then windowed. -/
def execFind (rm : String → String → Bool) (store : List MDoc) (qry : BsonM)
    (srt : List String) (win : Option Window) : List MDoc :=
  let base := sortDocs srt (store.filter (matchDoc rm qry))
  match win with
  | some w => applyWindow w base
  | none => base

/-! ## CRUD handler operations

Each Go operation samples `ctx.Err()` at fixed program points; those samples
are passed here explicitly (`ctx0` for the check on session acquisition in
`Handler.c`, `ctx1` for the later check).  `rm` is the store's regex engine. -/

/-- The outcome of a driver call, as far as `Insert` distinguishes it:
success, a duplicate-key error (`mgo.IsDup`), or any other driver error. -/
inductive MgoErr where
  | dupKey
  | other (msg : String)

/-- Map a driver error to the handler's error after the `mgo.IsDup` test. -/
def insertErrMap : Option MgoErr → Option Err
  | some .dupKey => some .conflict
  | some (.other msg) => some (.store msg)
  | none => none

/-- Driver call `c.Insert(mItems...)`: insert documents one by one, failing with a
duplicate-key error when an `_id` is already present; `envFail` injects any
environment-caused driver error (network etc.), in which case nothing is
written. -/
def mgoInsert (envFail : Option String) (store : List MDoc) :
    List MDoc → Option MgoErr × List MDoc :=
  match envFail with
  | some msg => fun _ => (some (.other msg), store)
  | none => go store
where
  go (store : List MDoc) : List MDoc → Option MgoErr × List MDoc
    | [] => (none, store)
    | d :: rest =>
      if store.any fun x => valBEq x.id d.id then (some .dupKey, store)
      else go (store ++ [d]) rest

/-- Source `Handler.Insert`. -/
def insertModel (ctx0 ctx1 : Option CtxErr) (envFail : Option String)
    (store : List MDoc) (items : List Item) : Option Err × List MDoc :=
  let mItems := items.map newMongoItem
  match ctx0 with
  | some e => (some (Err.ofCtx e), store)
  | none =>
    let r := mgoInsert envFail store (mItems.map MongoItem.toDoc)
    match ctx1 with
    | some e => (some (Err.ofCtx e), r.2)
    | none => (insertErrMap r.1, r.2)

/-- The replace/remove filter `Update` and `Delete` build: keyed by the
original identifier, plus the version-match clause on `_etag`. -/
def etagFilter (id : Value) (etag : String) : BsonM :=
  let s : BsonM := [("_id", .prim id)]
  if provisionalTag etag then
    setKey s "_etag" (.op [("$exists", .prim (.vBool false))])
  else
    setKey s "_etag" (.prim (.vStr etag))

/-- Driver call `c.Update(s, mItem)`: replace the first document matching the selector;
`none` when no document matched (`mgo.ErrNotFound`). -/
def mgoReplace (rm : String → String → Bool) (s : BsonM) (d : MDoc) :
    List MDoc → Option (List MDoc)
  | [] => none
  | x :: xs =>
    if matchDoc rm s x then some (d :: xs)
    else (mgoReplace rm s d xs).map (x :: ·)

/-- Driver call `c.Remove(s)`: remove the first document matching the selector; `none`
when no document matched (`mgo.ErrNotFound`). -/
def mgoRemove (rm : String → String → Bool) (s : BsonM) :
    List MDoc → Option (List MDoc)
  | [] => none
  | x :: xs =>
    if matchDoc rm s x then some xs
    else (mgoRemove rm s xs).map (x :: ·)

/-- Driver call `c.FindId(id).Count()`. -/
def countById (store : List MDoc) (id : Value) : Nat :=
  (store.filter fun d => valBEq d.id id).length

/-- The shared disambiguation both `Update` and `Delete` run when the store
reported that no document matched the versioned filter. -/
def notFoundDisambiguation (ctx1 : Option CtxErr) (store : List MDoc)
    (id : Value) : Err :=
  if countById store id == 0 then .notFound
  else
    match ctx1 with
    | some e => Err.ofCtx e
    | none => .conflict

/-- Source `Handler.Update`. -/
def updateModel (rm : String → String → Bool) (ctx0 ctx1 : Option CtxErr)
    (store : List MDoc) (item original : Item) : Option Err × List MDoc :=
  let mItem := newMongoItem item
  match ctx0 with
  | some e => (some (Err.ofCtx e), store)
  | none =>
    let s := etagFilter original.id original.etag
    match mgoReplace rm s mItem.toDoc store with
    | some store2 => (none, store2)
    | none => (some (notFoundDisambiguation ctx1 store original.id), store)

/-- Source `Handler.Delete`. -/
def deleteModel (rm : String → String → Bool) (ctx0 ctx1 : Option CtxErr)
    (store : List MDoc) (item : Item) : Option Err × List MDoc :=
  match ctx0 with
  | some e => (some (Err.ofCtx e), store)
  | none =>
    let s := etagFilter item.id item.etag
    match mgoRemove rm s store with
    | some store2 => (none, store2)
    | none => (some (notFoundDisambiguation ctx1 store item.id), store)

/-- Source `selectIDs`: the identifier projection of a windowed, sorted query. -/
def selectIDs (docs : List MDoc) : List Value :=
  docs.map MDoc.id

/-- Source `Handler.Clear`: translate the filter; on a windowed query run the
identifier pre-pass and delete by `{_id: {$in: ids}}`; return the number of
removed documents, the remaining store, and any error. -/
def clearModel (rm : String → String → Bool) (ctx0 ctx1 : Option CtxErr)
    (store : List MDoc) (q : Query) : Int × Option Err × List MDoc :=
  match getQuery q with
  | .error e => (0, some e, store)
  | .ok qry =>
    match ctx0 with
    | some e => (0, some (Err.ofCtx e), store)
    | none =>
      let finalQry :=
        match q.window with
        | some w =>
          let ids := selectIDs (execFind rm store qry (getSort q) (some w))
          [("_id", BsonVal.op [("$in", .prim (.vArr ids))])]
        | none => qry
      let removed := store.filter (matchDoc rm finalQry)
      let rest := store.filter fun d => !(matchDoc rm finalQry d)
      let err : Option Err := ctx1.map Err.ofCtx
      ((removed.length : Int), err, rest)

/-- Source `Handler.Count`. -/
def countModel (rm : String → String → Bool) (ctx0 : Option CtxErr)
    (store : List MDoc) (q : Query) : Int × Option Err :=
  match getQuery q with
  | .error e => (-1, some e)
  | .ok qry =>
    match ctx0 with
    | some e => (-1, some (Err.ofCtx e))
    | none => ((store.filter (matchDoc rm qry)).length, none)

/-- The list type `resource.ItemList`. -/
structure ItemList where
  total : Int
  limit : Int
  items : List Item

/-- The total-count deduction at the end of `Find` (the list's total starts
out as -1). -/
def deduceTotal (win : Option Window) (limit : Int) (n : Nat) : Int :=
  if limit < 0 ∨ (n : Int) < limit then
    match win with
    | some w =>
      if w.offset > 0 then (if 0 < n then w.offset + n else -1) else (n : Int)
    | none => (n : Int)
  else -1

/-- Source `Handler.Find`.  Here `ctxLoop` is the `ctx.Err()` sample taken inside the
cursor iteration loop (checked once per decoded document). -/
def findModel (rm : String → String → Bool) (ctx0 ctxLoop : Option CtxErr)
    (store : List MDoc) (q : Query) : Except Err ItemList :=
  if (q.window.map Window.limit) == some 0 then
    -- MongoDB would return all records on limit 0; work around via Count.
    match countModel rm ctx0 store q with
    | (_, some e) => .error e
    | (n, none) => .ok { total := n, limit := 0, items := [] }
  else
    match getQuery q with
    | .error e => .error e
    | .ok qry =>
      match ctx0 with
      | some e => .error (Err.ofCtx e)
      | none =>
        let srt := getSort q
        let docs := execFind rm store qry srt q.window
        let limit : Int :=
          match q.window with
          | some w => w.limit
          | none => -1
        match ctxLoop with
        | some e => if docs.length > 0 then .error (Err.ofCtx e) else
            .ok { total := deduceTotal q.window limit docs.length, limit := limit
                  items := docs.map fun d => newItem d.toMongoItem }
        | none =>
            .ok { total := deduceTotal q.window limit docs.length, limit := limit
                  items := docs.map fun d => newItem d.toMongoItem }

/-! ## Association-list lemmas -/

theorem lookupKey_setKey {α : Type} (m : List (String × α)) (k : String) (v : α)
    (k2 : String) :
    lookupKey (setKey m k v) k2 = if k2 = k then some v else lookupKey m k2 := by
  induction m with
  | nil =>
    simp only [setKey, lookupKey, beq_iff_eq]
    split_ifs <;> simp_all [eq_comm]
  | cons p rest ih =>
    obtain ⟨k1, v1⟩ := p
    by_cases h1 : k1 = k
    · subst h1
      simp only [setKey, lookupKey, beq_iff_eq, if_pos rfl]
      by_cases h2 : k2 = k1
      · simp [h2]
      · have h3 : ¬k1 = k2 := fun he => h2 he.symm
        simp [h2, h3]
    · simp only [setKey, lookupKey, beq_iff_eq, if_neg h1, ih]
      by_cases h2 : k1 = k2
      · subst h2
        simp [h1]
      · simp [h2]

theorem lookupKey_filterNot {α : Type} (m : List (String × α)) (k : String) :
    lookupKey (m.filter fun p => !(p.1 == k)) k = none := by
  induction m with
  | nil => simp [lookupKey]
  | cons p rest ih =>
    obtain ⟨k1, v1⟩ := p
    by_cases h : k1 = k
    · simp [List.filter, h, ih]
    · have hb : (k1 == k) = false := by simpa using h
      simp only [List.filter, hb, Bool.not_false, lookupKey, beq_iff_eq]
      simp [h, ih]

theorem lookupKey_filterNot_ne {α : Type} (m : List (String × α)) (k k2 : String)
    (h : ¬k2 = k) :
    lookupKey (m.filter fun p => !(p.1 == k)) k2 = lookupKey m k2 := by
  induction m with
  | nil => simp
  | cons p rest ih =>
    obtain ⟨k1, v1⟩ := p
    by_cases h1 : k1 = k
    · subst h1
      have hb : ¬k1 = k2 := fun he => h he.symm
      simp only [List.filter, beq_self_eq_true, Bool.not_true, lookupKey, beq_iff_eq]
      simp [hb, ih]
    · have hb : (k1 == k) = false := by simpa using h1
      simp only [List.filter, hb, Bool.not_false, lookupKey, beq_iff_eq]
      by_cases h2 : k1 = k2 <;> simp [h2, ih]

/-- The keys of an association list. -/
def keysOf {α : Type} (m : List (String × α)) : List String :=
  m.map Prod.fst

theorem setKey_append {α : Type} (m : List (String × α)) (k : String) (v : α)
    (h : ¬k ∈ keysOf m) :
    setKey m k v = m ++ [(k, v)] := by
  induction m with
  | nil => simp [setKey]
  | cons p rest ih =>
    obtain ⟨k1, v1⟩ := p
    have hne : ¬(k1 == k) = true := by
      simp only [keysOf, List.map_cons, List.mem_cons] at h
      simpa using fun he => h (Or.inl he.symm)
    have hrest : ¬k ∈ keysOf rest := by
      simp only [keysOf, List.map_cons, List.mem_cons] at h
      exact fun hm => h (Or.inr hm)
    simp [setKey, hne, ih hrest]

theorem keysOf_nodup_tail {α : Type} (k : String) (v : α) (rest : List (String × α))
    (h : (keysOf ((k, v) :: rest)).Nodup) :
    ¬k ∈ keysOf rest ∧ (keysOf rest).Nodup := by
  simp only [keysOf, List.map_cons] at h ⊢
  exact List.nodup_cons.mp h

theorem mergeKeys_append {α : Type} (src : List (String × α)) :
    ∀ dst : List (String × α), (keysOf src).Nodup →
    (∀ k, k ∈ keysOf src → ¬k ∈ keysOf dst) →
    mergeKeys dst src = dst ++ src := by
  induction src with
  | nil => intro dst _ _; simp [mergeKeys]
  | cons p rest ih =>
    intro dst hnd hdisj
    obtain ⟨k, v⟩ := p
    obtain ⟨hknr, hnd2⟩ := keysOf_nodup_tail k v rest hnd
    have hk : ¬k ∈ keysOf dst := hdisj k (by simp [keysOf])
    have hdisj2 : ∀ k2, k2 ∈ keysOf rest → ¬k2 ∈ keysOf (dst ++ [(k, v)]) := by
      intro k2 hk2 hmem
      have hk2d : ¬k2 ∈ keysOf dst := hdisj k2 (by simp [keysOf] at hk2 ⊢; exact Or.inr hk2)
      have : k2 ∈ keysOf dst ∨ k2 = k := by
        simpa [keysOf] using hmem
      rcases this with hc | hc
      · exact hk2d hc
      · subst hc; exact hknr hk2
    have step : mergeKeys dst ((k, v) :: rest) = mergeKeys (setKey dst k v) rest := rfl
    rw [step, setKey_append dst k v hk, ih _ hnd2 hdisj2]
    simp

theorem keysOf_setKey {α : Type} (m : List (String × α)) (k : String) (v : α) :
    keysOf (setKey m k v) = if k ∈ keysOf m then keysOf m else keysOf m ++ [k] := by
  induction m with
  | nil => simp [setKey, keysOf]
  | cons p rest ih =>
    obtain ⟨k1, v1⟩ := p
    by_cases h : k1 = k
    · subst h; simp [setKey, keysOf]
    · have hb : (k1 == k) = false := by simpa using h
      have hne : ¬k = k1 := fun he => h he.symm
      by_cases hm : k ∈ keysOf rest
      · simp only [setKey, hb, Bool.false_eq_true, if_false, keysOf, List.map_cons,
          List.mem_cons, hne, false_or]
        simp only [keysOf] at ih hm
        simp [hm, ih]
      · simp only [setKey, hb, Bool.false_eq_true, if_false, keysOf, List.map_cons,
          List.mem_cons, hne, false_or]
        simp only [keysOf] at ih hm
        simp [hm, ih]

theorem nodup_keysOf_setKey {α : Type} (m : List (String × α)) (k : String) (v : α)
    (h : (keysOf m).Nodup) : (keysOf (setKey m k v)).Nodup := by
  rw [keysOf_setKey]
  by_cases hm : k ∈ keysOf m
  · simpa [hm]
  · simp only [hm, if_false]
    refine List.Nodup.append h (List.nodup_singleton k) ?_
    intro a ha hb
    simp only [List.mem_singleton] at hb
    subst hb
    exact hm ha

theorem nodup_keysOf_mergeKeys {α : Type} (src : List (String × α)) :
    ∀ dst : List (String × α), (keysOf dst).Nodup → (keysOf (mergeKeys dst src)).Nodup := by
  induction src with
  | nil => intro dst h; simpa [mergeKeys]
  | cons p rest ih =>
    intro dst h
    have step : mergeKeys dst (p :: rest) = mergeKeys (setKey dst p.1 p.2) rest := rfl
    rw [step]
    exact ih _ (nodup_keysOf_setKey dst p.1 p.2 h)

/-! ## Translator analysis -/

mutual

/-- Does an expression contain a node kind the translator does not support? -/
def exprUnsupported : Expr → Bool
  | .and ops => predUnsupported ops
  | .or ops => predUnsupported ops
  | .subPred exps => predUnsupported exps
  | .elemMatch _ exps => predUnsupported exps
  | .unsupported => true
  | _ => false

/-- Does a predicate contain an unsupported node anywhere? -/
def predUnsupported : List Expr → Bool
  | [] => false
  | e :: rest => exprUnsupported e || predUnsupported rest

end

mutual

theorem translateStep_unsupported (b : BsonM) (e : Expr) :
    (exprUnsupported e = true → translateStep b e = .error .notImplemented) ∧
    (exprUnsupported e = false → ∃ m, translateStep b e = .ok m) := by
  cases e with
  | and ops =>
    have ih := translateOperands_unsupported ops
    constructor
    · intro h
      simp only [exprUnsupported] at h
      obtain ⟨he⟩ := ih
      simp [translateStep, bind, Except.bind, he h]
    · intro h
      simp only [exprUnsupported] at h
      obtain ⟨s, hs⟩ := ih.2 h
      exact ⟨_, by simp [translateStep, bind, Except.bind, hs]; rfl⟩
  | or ops =>
    have ih := translateOperands_unsupported ops
    constructor
    · intro h
      simp only [exprUnsupported] at h
      simp [translateStep, bind, Except.bind, ih.1 h]
    · intro h
      simp only [exprUnsupported] at h
      obtain ⟨s, hs⟩ := ih.2 h
      exact ⟨_, by simp [translateStep, bind, Except.bind, hs]; rfl⟩
  | subPred exps =>
    have ih := translateList_unsupported [] exps
    constructor
    · intro h
      simp only [exprUnsupported] at h
      simp [translateStep, bind, Except.bind, ih.1 h]
    · intro h
      simp only [exprUnsupported] at h
      obtain ⟨m, hm⟩ := ih.2 h
      exact ⟨_, by simp [translateStep, bind, Except.bind, hm]; rfl⟩
  | elemMatch f exps =>
    have ih := translateMerge_unsupported [] exps
    constructor
    · intro h
      simp only [exprUnsupported] at h
      simp [translateStep, bind, Except.bind, ih.1 h]
    · intro h
      simp only [exprUnsupported] at h
      obtain ⟨m, hm⟩ := ih.2 h
      exact ⟨_, by simp [translateStep, bind, Except.bind, hm]; rfl⟩
  | unsupported => exact ⟨fun _ => rfl, fun h => by simp [exprUnsupported] at h⟩
  | inOp f vs => exact ⟨fun h => by simp [exprUnsupported] at h, fun _ => ⟨_, rfl⟩⟩
  | ninOp f vs => exact ⟨fun h => by simp [exprUnsupported] at h, fun _ => ⟨_, rfl⟩⟩
  | exist f => exact ⟨fun h => by simp [exprUnsupported] at h, fun _ => ⟨_, rfl⟩⟩
  | notExist f => exact ⟨fun h => by simp [exprUnsupported] at h, fun _ => ⟨_, rfl⟩⟩
  | eq f v => exact ⟨fun h => by simp [exprUnsupported] at h, fun _ => ⟨_, rfl⟩⟩
  | ne f v => exact ⟨fun h => by simp [exprUnsupported] at h, fun _ => ⟨_, rfl⟩⟩
  | gt f v => exact ⟨fun h => by simp [exprUnsupported] at h, fun _ => ⟨_, rfl⟩⟩
  | gte f v => exact ⟨fun h => by simp [exprUnsupported] at h, fun _ => ⟨_, rfl⟩⟩
  | lt f v => exact ⟨fun h => by simp [exprUnsupported] at h, fun _ => ⟨_, rfl⟩⟩
  | lte f v => exact ⟨fun h => by simp [exprUnsupported] at h, fun _ => ⟨_, rfl⟩⟩
  | regex f pat => exact ⟨fun h => by simp [exprUnsupported] at h, fun _ => ⟨_, rfl⟩⟩

theorem translateOperands_unsupported (l : List Expr) :
    (predUnsupported l = true → translateOperands l = .error .notImplemented) ∧
    (predUnsupported l = false → ∃ s, translateOperands l = .ok s) := by
  cases l with
  | nil => exact ⟨fun h => by simp [predUnsupported] at h, fun _ => ⟨_, rfl⟩⟩
  | cons e rest =>
    have ihe := translateStep_unsupported [] e
    have ihr := translateOperands_unsupported rest
    constructor
    · intro h
      simp only [predUnsupported, Bool.or_eq_true] at h
      cases he : exprUnsupported e with
      | true => simp [translateOperands, bind, Except.bind, ihe.1 he]
      | false =>
        obtain ⟨sb, hsb⟩ := ihe.2 he
        have hr : predUnsupported rest = true := by
          rcases h with h | h
          · rw [he] at h; cases h
          · exact h
        simp [translateOperands, bind, Except.bind, hsb, ihr.1 hr]
    · intro h
      simp only [predUnsupported, Bool.or_eq_false_iff] at h
      obtain ⟨sb, hsb⟩ := ihe.2 h.1
      obtain ⟨s, hs⟩ := ihr.2 h.2
      exact ⟨_, by simp [translateOperands, bind, Except.bind, hsb, hs]; rfl⟩

theorem translateMerge_unsupported (s : BsonM) (l : List Expr) :
    (predUnsupported l = true → translateMerge s l = .error .notImplemented) ∧
    (predUnsupported l = false → ∃ m, translateMerge s l = .ok m) := by
  cases l with
  | nil => exact ⟨fun h => by simp [predUnsupported] at h, fun _ => ⟨_, rfl⟩⟩
  | cons e rest =>
    have ihe := translateStep_unsupported [] e
    constructor
    · intro h
      simp only [predUnsupported, Bool.or_eq_true] at h
      cases he : exprUnsupported e with
      | true => simp [translateMerge, bind, Except.bind, ihe.1 he]
      | false =>
        obtain ⟨sb, hsb⟩ := ihe.2 he
        have hr : predUnsupported rest = true := by
          rcases h with h | h
          · rw [he] at h; cases h
          · exact h
        have ihr := translateMerge_unsupported (mergeKeys s sb) rest
        simp [translateMerge, bind, Except.bind, hsb, ihr.1 hr]
    · intro h
      simp only [predUnsupported, Bool.or_eq_false_iff] at h
      obtain ⟨sb, hsb⟩ := ihe.2 h.1
      have ihr := translateMerge_unsupported (mergeKeys s sb) rest
      obtain ⟨m, hm⟩ := ihr.2 h.2
      exact ⟨m, by simp [translateMerge, bind, Except.bind, hsb, hm]⟩

theorem translateList_unsupported (b : BsonM) (l : List Expr) :
    (predUnsupported l = true → translateList b l = .error .notImplemented) ∧
    (predUnsupported l = false → ∃ m, translateList b l = .ok m) := by
  cases l with
  | nil => exact ⟨fun h => by simp [predUnsupported] at h, fun _ => ⟨_, rfl⟩⟩
  | cons e rest =>
    have ihe := translateStep_unsupported b e
    constructor
    · intro h
      simp only [predUnsupported, Bool.or_eq_true] at h
      cases he : exprUnsupported e with
      | true => simp [translateList, bind, Except.bind, ihe.1 he]
      | false =>
        obtain ⟨b2, hb2⟩ := ihe.2 he
        have hr : predUnsupported rest = true := by
          rcases h with h | h
          · rw [he] at h; cases h
          · exact h
        have ihr := translateList_unsupported b2 rest
        simp [translateList, bind, Except.bind, hb2, ihr.1 hr]
    · intro h
      simp only [predUnsupported, Bool.or_eq_false_iff] at h
      obtain ⟨b2, hb2⟩ := ihe.2 h.1
      have ihr := translateList_unsupported b2 rest
      obtain ⟨m, hm⟩ := ihr.2 h.2
      exact ⟨m, by simp [translateList, bind, Except.bind, hb2, hm]⟩

end

/-- Every branch of `translateStep` extends the accumulator by `setKey` or
`mergeKeys`, so distinctness of the accumulated keys is preserved. -/
theorem translateStep_keys_nodup (b : BsonM) (e : Expr) (m : BsonM)
    (h : translateStep b e = .ok m) (hb : (keysOf b).Nodup) : (keysOf m).Nodup := by
  cases e with
  | and ops =>
    cases hop : translateOperands ops with
    | error er => simp [translateStep, bind, Except.bind, hop] at h
    | ok s =>
      simp only [translateStep, bind, Except.bind, hop, pure, Except.pure, Except.ok.injEq] at h
      exact h ▸ nodup_keysOf_setKey _ _ _ hb
  | or ops =>
    cases hop : translateOperands ops with
    | error er => simp [translateStep, bind, Except.bind, hop] at h
    | ok s =>
      simp only [translateStep, bind, Except.bind, hop, pure, Except.pure, Except.ok.injEq] at h
      exact h ▸ nodup_keysOf_setKey _ _ _ hb
  | subPred exps =>
    cases hop : translateList [] exps with
    | error er => simp [translateStep, bind, Except.bind, hop] at h
    | ok sb =>
      simp only [translateStep, bind, Except.bind, hop, pure, Except.pure, Except.ok.injEq] at h
      exact h ▸ nodup_keysOf_mergeKeys _ _ hb
  | elemMatch f exps =>
    cases hop : translateMerge [] exps with
    | error er => simp [translateStep, bind, Except.bind, hop] at h
    | ok s =>
      simp only [translateStep, bind, Except.bind, hop, pure, Except.pure, Except.ok.injEq] at h
      exact h ▸ nodup_keysOf_setKey _ _ _ hb
  | unsupported => simp [translateStep, throw, throwThe, MonadExceptOf.throw] at h
  | inOp f vs =>
    simp only [translateStep, pure, Except.pure, Except.ok.injEq] at h
    exact h ▸ nodup_keysOf_setKey _ _ _ hb
  | ninOp f vs =>
    simp only [translateStep, pure, Except.pure, Except.ok.injEq] at h
    exact h ▸ nodup_keysOf_setKey _ _ _ hb
  | exist f =>
    simp only [translateStep, pure, Except.pure, Except.ok.injEq] at h
    exact h ▸ nodup_keysOf_setKey _ _ _ hb
  | notExist f =>
    simp only [translateStep, pure, Except.pure, Except.ok.injEq] at h
    exact h ▸ nodup_keysOf_setKey _ _ _ hb
  | eq f v =>
    simp only [translateStep, pure, Except.pure, Except.ok.injEq] at h
    exact h ▸ nodup_keysOf_setKey _ _ _ hb
  | ne f v =>
    simp only [translateStep, pure, Except.pure, Except.ok.injEq] at h
    exact h ▸ nodup_keysOf_setKey _ _ _ hb
  | gt f v =>
    simp only [translateStep, pure, Except.pure, Except.ok.injEq] at h
    exact h ▸ nodup_keysOf_setKey _ _ _ hb
  | gte f v =>
    simp only [translateStep, pure, Except.pure, Except.ok.injEq] at h
    exact h ▸ nodup_keysOf_setKey _ _ _ hb
  | lt f v =>
    simp only [translateStep, pure, Except.pure, Except.ok.injEq] at h
    exact h ▸ nodup_keysOf_setKey _ _ _ hb
  | lte f v =>
    simp only [translateStep, pure, Except.pure, Except.ok.injEq] at h
    exact h ▸ nodup_keysOf_setKey _ _ _ hb
  | regex f pat =>
    simp only [translateStep, pure, Except.pure, Except.ok.injEq] at h
    exact h ▸ nodup_keysOf_setKey _ _ _ hb

theorem translateList_keys_nodup (l : List Expr) :
    ∀ b m : BsonM, translateList b l = .ok m → (keysOf b).Nodup →
    (keysOf m).Nodup := by
  induction l with
  | nil =>
    intro b m h hb
    simp only [translateList, pure, Except.pure, Except.ok.injEq] at h
    exact h ▸ hb
  | cons e rest ih =>
    intro b m h hb
    cases hs : translateStep b e with
    | error er => simp [translateList, bind, Except.bind, hs] at h
    | ok b2 =>
      simp only [translateList, bind, Except.bind, hs] at h
      exact ih b2 m h (translateStep_keys_nodup b e b2 hs hb)

/-- Merging a distinct-keyed document into the empty map reproduces it. -/
theorem mergeKeys_nil (sb : BsonM) (h : (keysOf sb).Nodup) :
    mergeKeys ([] : BsonM) sb = sb := by
  have := mergeKeys_append sb [] h (by intro k _ hk; simp [keysOf] at hk)
  simpa using this

/-- CLAIM C4.  An And (or Or) operand that is itself a sub-predicate (a list
of bare expressions) is collapsed into the single merged filter document that
the predicate itself translates to — the same document `translatePredicate`
yields — rather than failing or producing a nested wrapper; each operand of
And/Or independently becomes one entry of the emitted `$and`/`$or` array. -/
theorem claim_C4_subpredicate_collapse (ops exps : List Expr) (m : BsonM) :
    translatePredicate [Expr.and ops] =
      (translateOperands ops).map (fun s => [("$and", BsonVal.docs s)]) ∧
    translatePredicate [Expr.or ops] =
      (translateOperands ops).map (fun s => [("$or", BsonVal.docs s)]) ∧
    (translatePredicate exps = .ok m →
      translateStep [] (Expr.subPred exps) = .ok m) := by
  refine ⟨?_, ?_, ?_⟩
  · cases hop : translateOperands ops with
    | error er =>
      simp [translatePredicate, translateList, translateStep, bind, Except.bind, hop,
        Except.map]
    | ok s =>
      simp [translatePredicate, translateList, translateStep, bind, Except.bind, hop,
        Except.map, setKey, pure, Except.pure]
  · cases hop : translateOperands ops with
    | error er =>
      simp [translatePredicate, translateList, translateStep, bind, Except.bind, hop,
        Except.map]
    | ok s =>
      simp [translatePredicate, translateList, translateStep, bind, Except.bind, hop,
        Except.map, setKey, pure, Except.pure]
  · intro h
    have hnd : (keysOf m).Nodup :=
      translateList_keys_nodup exps [] m h (by simp [keysOf])
    simp only [translateStep, translatePredicate] at h ⊢
    rw [h]
    simp only [bind, Except.bind, pure, Except.pure]
    rw [mergeKeys_nil m hnd]

/-- Witness for C4: the repository test's "and predicates" case — the
operand `{f: "bar", g: "baz"}` given as a bare sub-predicate is collapsed
into one document inside `$and`. -/
theorem claim_C4_witness :
    translatePredicate [Expr.eq "f" (.vStr "bar"), Expr.eq "g" (.vStr "baz")] =
      .ok [("f", .prim (.vStr "bar")), ("g", .prim (.vStr "baz"))] ∧
    translateStep []
        (Expr.subPred [Expr.eq "f" (.vStr "bar"), Expr.eq "g" (.vStr "baz")]) =
      .ok [("f", .prim (.vStr "bar")), ("g", .prim (.vStr "baz"))] := by
  refine ⟨rfl, ?_⟩
  exact (claim_C4_subpredicate_collapse []
    [Expr.eq "f" (.vStr "bar"), Expr.eq "g" (.vStr "baz")]
    [("f", .prim (.vStr "bar")), ("g", .prim (.vStr "baz"))]).2.2 rfl

/-- CLAIM C5.  A predicate built only from supported node kinds always
translates; a predicate containing an unsupported node anywhere — also
nested below And/Or — fails with the `UnsupportedExpression` error
(`resource.ErrNotImplemented`), propagated unchanged. -/
theorem claim_C5_unsupported_expression (p : List Expr) :
    (predUnsupported p = false → ∃ m, translatePredicate p = .ok m) ∧
    (predUnsupported p = true →
      translatePredicate p = .error Err.notImplemented) := by
  refine ⟨fun h => (translateList_unsupported [] p).2 h,
    fun h => (translateList_unsupported [] p).1 h⟩

/-- Witness for C5: the spec's own example `And{Equal{f,1}, Unsupported{}}`
fails with `ErrNotImplemented`, and the same predicate without the
unsupported node succeeds. -/
theorem claim_C5_witness :
    predUnsupported [Expr.and [Expr.eq "f" (.vInt 1), Expr.unsupported]] = true ∧
    translatePredicate [Expr.and [Expr.eq "f" (.vInt 1), Expr.unsupported]] =
      .error Err.notImplemented ∧
    predUnsupported [Expr.and [Expr.eq "f" (.vInt 1)]] = false ∧
    translatePredicate [Expr.and [Expr.eq "f" (.vInt 1)]] =
      .ok [("$and", .docs [[("f", .prim (.vInt 1))]])] := by
  refine ⟨rfl, ?_, rfl, rfl⟩
  exact (claim_C5_unsupported_expression
    [Expr.and [Expr.eq "f" (.vInt 1), Expr.unsupported]]).2 rfl

/-- CLAIM C8.  Single field comparisons map 1:1 to the native operators with
the value passed through untouched; the field name `id` is rewritten to
`_id` and all other names are unchanged; a pattern-match node emits `$regex`
carrying the compiled pattern's string form verbatim. -/
theorem claim_C8_operator_mapping (f : String) (v : Value) (vs : List Value)
    (pat : String) :
    translatePredicate [Expr.eq f v] = .ok [(getField f, .prim v)] ∧
    translatePredicate [Expr.ne f v] =
      .ok [(getField f, .op [("$ne", .prim v)])] ∧
    translatePredicate [Expr.gt f v] =
      .ok [(getField f, .op [("$gt", .prim v)])] ∧
    translatePredicate [Expr.gte f v] =
      .ok [(getField f, .op [("$gte", .prim v)])] ∧
    translatePredicate [Expr.lt f v] =
      .ok [(getField f, .op [("$lt", .prim v)])] ∧
    translatePredicate [Expr.lte f v] =
      .ok [(getField f, .op [("$lte", .prim v)])] ∧
    translatePredicate [Expr.inOp f vs] =
      .ok [(getField f, .op [("$in", .prim (.vArr vs))])] ∧
    translatePredicate [Expr.ninOp f vs] =
      .ok [(getField f, .op [("$nin", .prim (.vArr vs))])] ∧
    translatePredicate [Expr.exist f] =
      .ok [(getField f, .op [("$exists", .prim (.vBool true))])] ∧
    translatePredicate [Expr.notExist f] =
      .ok [(getField f, .op [("$exists", .prim (.vBool false))])] ∧
    translatePredicate [Expr.regex f pat] =
      .ok [(getField f, .op [("$regex", .prim (.vStr pat))])] ∧
    getField "id" = "_id" ∧
    (¬f = "id" → getField f = f) := by
  refine ⟨rfl, rfl, rfl, rfl, rfl, rfl, rfl, rfl, rfl, rfl, rfl, rfl, ?_⟩
  intro h
  simp [getField, h]

/-- Witness for C8 at a concrete non-identifier field. -/
theorem claim_C8_witness :
    translatePredicate [Expr.eq "name" (.vStr "foo")] =
      .ok [("name", .prim (.vStr "foo"))] ∧
    getField "name" = "name" ∧ ¬"name" = "id" := by
  have h := claim_C8_operator_mapping "name" (.vStr "foo") [] "x"
  have hne : ¬"name" = "id" := by decide
  refine ⟨?_, ?_, hne⟩
  · simpa [h.2.2.2.2.2.2.2.2.2.2.2.2 hne] using h.1
  · exact h.2.2.2.2.2.2.2.2.2.2.2.2 hne

/-- CLAIM C9.  The sort translator keeps length and order, marks reversed
entries with a leading `-`, rewrites the identifier field to the primary
key, and answers `["_id"]` for the empty sort list, giving a deterministic
default ordering. -/
theorem claim_C9_sort_translation (q : Query) :
    getSort q =
      match q.sort with
      | [] => ["_id"]
      | l => l.map fun s => (if s.reversed then "-" else "") ++ getField s.name := by
  cases hq : q.sort with
  | nil => simp [getSort, hq]
  | cons s rest =>
    simp only [getSort, hq, List.length_cons]
    have : ((rest.length + 1 : Nat) == 0) = false := by simp
    rw [this]
    simp only [Bool.false_eq_true, if_false]
    refine List.map_congr_left ?_
    intro a _
    by_cases hr : a.reversed <;> simp [hr]

/-! ## Item codec claims -/

/-- The encode side of the round trip followed by the store decode is the
mongoItem itself (an explicit ETag is stored and decoded back unchanged). -/
theorem toDoc_toMongoItem (m : MongoItem) : m.toDoc.toMongoItem = m := rfl

/-- CLAIM C7.  Encoding an item strips the `id` key from the stored payload;
decoding the stored document back yields an item with identical identifier,
ETag and update time, and a payload identical to the original except that
the identifier is (re-)bound under the `id` key — provided the ETag is
non-empty (an empty one would decode to a provisional token instead). -/
theorem claim_C7_item_roundtrip (i : Item) (h : ¬i.etag = "") :
    lookupKey (newMongoItem i).payload "id" = none ∧
    (newItem (newMongoItem i).toDoc.toMongoItem).id = i.id ∧
    (newItem (newMongoItem i).toDoc.toMongoItem).etag = i.etag ∧
    (newItem (newMongoItem i).toDoc.toMongoItem).updated = i.updated ∧
    ∀ k, lookupKey (newItem (newMongoItem i).toDoc.toMongoItem).payload k =
      if k = "id" then some i.id else lookupKey i.payload k := by
  have hb : (i.etag == "") = false := by simpa using h
  rw [toDoc_toMongoItem]
  refine ⟨lookupKey_filterNot i.payload "id", ?_, ?_, ?_, ?_⟩
  · simp [newItem, newMongoItem, hb]
  · simp [newItem, newMongoItem, hb]
  · simp [newItem, newMongoItem, hb]
  · intro k
    have hp : (newItem (newMongoItem i)).payload =
        setKey ((newMongoItem i).payload) "id" i.id := by
      cases hc : ((newMongoItem i).etag == "") <;> simp [newItem, hc] <;> rfl
    rw [hp, lookupKey_setKey]
    by_cases hk : k = "id"
    · simp [hk]
    · simp only [hk, if_false]
      exact lookupKey_filterNot_ne i.payload "id" k hk

/-- Witness for C7 at a concrete item. -/
theorem claim_C7_witness :
    lookupKey (newMongoItem ⟨.vStr "1", "tag", 7,
        [("id", .vStr "1"), ("foo", .vStr "bar")]⟩).payload "id" = none ∧
    (newItem (newMongoItem ⟨.vStr "1", "tag", 7,
        [("id", .vStr "1"), ("foo", .vStr "bar")]⟩).toDoc.toMongoItem).etag = "tag" ∧
    lookupKey (newItem (newMongoItem ⟨.vStr "1", "tag", 7,
        [("id", .vStr "1"), ("foo", .vStr "bar")]⟩).toDoc.toMongoItem).payload "foo" =
      some (.vStr "bar") := by
  have h := claim_C7_item_roundtrip
    ⟨.vStr "1", "tag", 7, [("id", .vStr "1"), ("foo", .vStr "bar")]⟩ (by decide)
  refine ⟨h.1, h.2.2.1, ?_⟩
  have hfoo := h.2.2.2.2 "foo"
  rw [hfoo]
  simp [lookupKey]

/-! ## CRUD handler claims -/

/-- The degenerate regex engine used for concrete witnesses (no predicate in
them carries a pattern). -/
def rmNone : String → String → Bool := fun _ _ => false

/-- Concrete fixture documents and queries for witnesses. -/
def docN1 : MDoc := ⟨.vStr "1", some "e1", 0, [("name", .vStr "a")]⟩

def docN2 : MDoc := ⟨.vStr "2", some "e2", 0, [("name", .vStr "b")]⟩

def storeN : List MDoc := [docN2, docN1]

def qWin01 : Query := ⟨[], [⟨"name", false⟩], some ⟨0, 1⟩⟩

def qWin00 : Query := ⟨[], [], some ⟨0, 0⟩⟩

/-- CLAIM C10.  `Insert` returns the context's error — sampled after the
store round-trip — in preference to every store outcome: a successful
insert, a duplicate-key conflict, and any other driver error alike. -/
theorem claim_C10_insert_ctx_override (envFail : Option String)
    (store : List MDoc) (items : List Item) (e : CtxErr) :
    (insertModel none (some e) envFail store items).1 = some (Err.ofCtx e) ∧
    (insertModel none none envFail store items).1 =
      insertErrMap
        (mgoInsert envFail store ((items.map newMongoItem).map MongoItem.toDoc)).1 := by
  constructor <;> simp [insertModel]

/-- Counterexample to C1 as stated: the store reports that no document
matched the versioned filter, a document with the identifier exists, yet —
because the context has been cancelled by the time of the disambiguating
re-query — `Update` returns the context's error, not `Conflict`. -/
theorem claim_C1_counterexample :
    (List.filter
      (matchDoc rmNone (etagFilter (Value.vStr "1") "B"))
      [(⟨.vStr "1", some "A", 0, []⟩ : MDoc)]).length = 0 ∧
    countById [(⟨.vStr "1", some "A", 0, []⟩ : MDoc)] (.vStr "1") = 1 ∧
    updateModel rmNone none (some .canceled)
        [(⟨.vStr "1", some "A", 0, []⟩ : MDoc)]
        ⟨.vStr "1", "B", 0, []⟩ ⟨.vStr "1", "B", 0, []⟩ =
      (some Err.canceled, [(⟨.vStr "1", some "A", 0, []⟩ : MDoc)]) ∧
    Err.canceled ≠ Err.conflict := by
  exact ⟨rfl, rfl, rfl, by decide⟩

/-- CLAIM C1 (amended).  `Update` and `Delete` build the replace/remove
filter from the original identifier plus the version clause — `_etag` must
be absent when the original ETag is provisional (`p-` tagged), and equal to
it otherwise; when the store reports that no document matched that filter,
the re-query by identifier alone yields `NotFound` when no document carries
the identifier, and otherwise `Conflict` — unless the context has been
cancelled by then, in which case the context's error is returned instead. -/
theorem claim_C1_update_delete_version_filter (rm : String → String → Bool)
    (ctx1 : Option CtxErr) (store : List MDoc) (item original : Item) :
    etagFilter original.id original.etag =
      [("_id", .prim original.id),
       ("_etag",
        if provisionalTag original.etag then .op [("$exists", .prim (.vBool false))]
        else .prim (.vStr original.etag))] ∧
    (mgoReplace rm (etagFilter original.id original.etag)
        (newMongoItem item).toDoc store = none →
      updateModel rm none ctx1 store item original =
        (some (if countById store original.id = 0 then Err.notFound
          else
            match ctx1 with
            | some e => Err.ofCtx e
            | none => Err.conflict), store)) ∧
    (mgoRemove rm (etagFilter item.id item.etag) store = none →
      deleteModel rm none ctx1 store item =
        (some (if countById store item.id = 0 then Err.notFound
          else
            match ctx1 with
            | some e => Err.ofCtx e
            | none => Err.conflict), store)) := by
  refine ⟨?_, ?_, ?_⟩
  · by_cases h : provisionalTag original.etag = true <;>
      simp [etagFilter, setKey, h]
  · intro h
    simp only [updateModel, h, notFoundDisambiguation, beq_iff_eq]
  · intro h
    simp only [deleteModel, h, notFoundDisambiguation, beq_iff_eq]

/-- Witness for C1: a stale explicit ETag against a live context yields
`Conflict`, and a missing identifier yields `NotFound`. -/
theorem claim_C1_witness :
    mgoReplace rmNone (etagFilter (Value.vStr "1") "B")
      (newMongoItem ⟨.vStr "1", "B", 0, []⟩).toDoc
      [(⟨.vStr "1", some "A", 0, []⟩ : MDoc)] = none ∧
    updateModel rmNone none none [(⟨.vStr "1", some "A", 0, []⟩ : MDoc)]
        ⟨.vStr "1", "B", 0, []⟩ ⟨.vStr "1", "B", 0, []⟩ =
      (some Err.conflict, [(⟨.vStr "1", some "A", 0, []⟩ : MDoc)]) := by
  have h := claim_C1_update_delete_version_filter rmNone none
    [(⟨.vStr "1", some "A", 0, []⟩ : MDoc)]
    ⟨.vStr "1", "B", 0, []⟩ ⟨.vStr "1", "B", 0, []⟩
  refine ⟨rfl, ?_⟩
  have h2 := h.2.1 rfl
  rw [h2]
  rfl

/-- The bulk-delete filter `{_id: {$in: ids}}` matches exactly the documents
whose identifier occurs in `ids`. -/
theorem matchDoc_idIn (rm : String → String → Bool) (ids : List Value) (d : MDoc) :
    matchDoc rm [("_id", .op [("$in", .prim (.vArr ids))])] d =
      ids.any fun i => valBEq d.id i := by
  simp only [matchDoc, matchM, matchEntry, matchOps, matchOp, MDoc.fieldVal, fieldEq,
    Bool.and_true]
  rfl

/-- CLAIM C6.  A windowed `Clear` runs the pre-pass — the filtered, sorted
query projected to identifiers with the window applied — and then deletes
exactly the documents whose identifier is in the collected list (the
`{_id: {$in: ids}}` bulk delete), leaving every other document in place. -/
theorem claim_C6_clear_window_prepass (rm : String → String → Bool)
    (ctx1 : Option CtxErr) (store : List MDoc) (q : Query) (w : Window)
    (qry : BsonM) (hw : q.window = some w) (htr : getQuery q = .ok qry) :
    clearModel rm none ctx1 store q =
      (((store.filter fun d =>
          (selectIDs (applyWindow w (sortDocs (getSort q)
            (store.filter (matchDoc rm qry))))).any fun i => valBEq d.id i).length : Int),
       ctx1.map Err.ofCtx,
       store.filter fun d =>
        !((selectIDs (applyWindow w (sortDocs (getSort q)
            (store.filter (matchDoc rm qry))))).any fun i => valBEq d.id i)) := by
  have hpred : (matchDoc rm
      [("_id", BsonVal.op [("$in", BsonVal.prim (Value.vArr
        (selectIDs (applyWindow w (sortDocs (getSort q)
          (store.filter (matchDoc rm qry)))))))])]) =
      fun d => (selectIDs (applyWindow w (sortDocs (getSort q)
        (store.filter (matchDoc rm qry))))).any fun i => valBEq d.id i :=
    funext fun d => matchDoc_idIn rm _ d
  simp only [clearModel, htr, hw, execFind, hpred]

/-- Witness for C6: the spec's scenario — two matching documents, ascending
sort, `Window{Limit:1}` — removes exactly the first document in sort order
and leaves the second. -/
theorem claim_C6_witness :
    clearModel rmNone none none storeN qWin01 = (1, none, [docN2]) ∧
    selectIDs (applyWindow ⟨0, 1⟩ (sortDocs (getSort qWin01)
      (storeN.filter (matchDoc rmNone [])))) = [.vStr "1"] := by
  have h := claim_C6_clear_window_prepass rmNone none storeN qWin01 ⟨0, 1⟩ [] rfl rfl
  constructor
  · rw [h]; rfl
  · rfl

/-- Counterexample to C2 as stated: `Clear` — an operation receiving a query
whose window has limit 0 — does not short-circuit to an empty result; the
zero limit reaches the store cursor, which treats it as "no limit", and
every matching document is deleted. -/
theorem claim_C2_counterexample :
    qWin00.window = some ⟨0, 0⟩ ∧
    clearModel rmNone none none storeN qWin00 = (2, none, []) ∧
    (2 : Int) ≠ 0 := by
  exact ⟨rfl, rfl, by decide⟩

/-- CLAIM C2 (amended).  `Find` special-cases a zero window limit before the
window translator: it short-circuits to an empty item list whose total is
the count of documents matching the predicate ignoring the window.  `Clear`
has no such special case: the zero limit reaches the window translator
unchanged, and the store cursor treats limit 0 as "no limit", so the
pre-pass identifier list is not restricted by the limit at all. -/
theorem claim_C2_limit_zero_find_vs_clear (rm : String → String → Bool)
    (ctxLoop : Option CtxErr) (store : List MDoc) (q : Query) (w : Window)
    (qry : BsonM) (docs : List MDoc)
    (hw : q.window = some w) (hl : w.limit = 0) (htr : getQuery q = .ok qry) :
    findModel rm none ctxLoop store q =
      .ok { total := ((store.filter (matchDoc rm qry)).length : Int),
            limit := 0, items := [] } ∧
    applyWindow w docs = (if w.offset > 0 then docs.drop w.offset.toNat else docs) := by
  constructor
  · have hcond : (q.window.map Window.limit == some 0) = true := by
      simp [hw, hl]
    simp only [findModel, hcond, if_true, countModel, htr]
  · simp [applyWindow, mgoLimit, hl]

/-- Witness for C2: `Find` with `Window{Limit:0}` against two matching
documents returns no items and total 2; the window translator leaves the
document list unlimited. -/
theorem claim_C2_witness :
    findModel rmNone none none storeN qWin00 =
      .ok { total := 2, limit := 0, items := [] } ∧
    applyWindow ⟨0, 0⟩ storeN = storeN := by
  have h := claim_C2_limit_zero_find_vs_clear rmNone none storeN qWin00 ⟨0, 0⟩
    [] storeN rfl rfl rfl
  exact ⟨h.1, h.2⟩

/-- The `limit` local variable of `Find`: the window's limit, or -1 when no
window was supplied. -/
def windowLimit (q : Query) : Int :=
  match q.window with
  | some w => w.limit
  | none => -1

/-- The test `q.Window != nil && q.Window.Offset > 0`: was a positive offset supplied? -/
def offsetSupplied (q : Query) : Prop :=
  match q.window with
  | some w => 0 < w.offset
  | none => False

/-- The supplied offset (0 when no window was supplied). -/
def windowOffset (q : Query) : Int :=
  match q.window with
  | some w => w.offset
  | none => 0

/-- Case analysis of the total-count deduction. -/
theorem deduceTotal_spec (win : Option Window) (limit : Int) (n : Nat) :
    ((limit < 0 ∨ (n : Int) < limit) →
      ((match win with | some w => 0 < w.offset | none => False) → 0 < n →
        deduceTotal win limit n =
          (match win with | some w => w.offset | none => 0) + n) ∧
      ((match win with | some w => 0 < w.offset | none => False) → n = 0 →
        deduceTotal win limit n = -1) ∧
      (¬(match win with | some w => 0 < w.offset | none => False) →
        deduceTotal win limit n = (n : Int))) ∧
    (0 ≤ limit → (n : Int) = limit → deduceTotal win limit n = -1) := by
  by_cases hc : limit < 0 ∨ (n : Int) < limit
  · refine ⟨fun _ => ?_, fun h1 h2 => ?_⟩
    · cases win with
      | none =>
        refine ⟨fun h => h.elim, fun h => h.elim, fun _ => ?_⟩
        simp [deduceTotal, hc]
      | some w =>
        refine ⟨fun ho hn => ?_, fun ho hn => ?_, fun ho => ?_⟩
        · have ho2 : 0 < w.offset := ho
          have hn2 : ¬n = 0 := by omega
          simp [deduceTotal, hc, ho2, hn, hn2]
        · have ho2 : 0 < w.offset := ho
          subst hn
          simp [deduceTotal, hc, ho2]
        · have ho2 : ¬0 < w.offset := fun hx => ho hx
          simp [deduceTotal, hc, ho2]
    · exfalso
      omega
  · refine ⟨fun h => absurd h hc, fun _ _ => ?_⟩
    simp [deduceTotal, hc]

/-- Counterexample to C3 as stated: a `Find` whose window has limit 0
returns without error with as many items as the limit (zero), yet its total
is the match count (here 0), not -1 as the "returned count equals the
requested limit" clause would demand. -/
theorem claim_C3_counterexample :
    findModel rmNone none none ([] : List MDoc) qWin00 =
      .ok { total := 0, limit := 0, items := [] } ∧
    windowLimit qWin00 = 0 ∧
    (0 : Int) ≠ -1 := by
  exact ⟨rfl, rfl, by decide⟩

/-- CLAIM C3 (amended).  For every `Find` call that returns without a store
error and whose requested limit is not the special-cased 0 (for which the
total is the `Count` result instead), the total is deduced exactly as
claimed: with fewer returned items than the limit (or no limit), the total
is offset plus returned count when a positive offset was supplied and items
came back, the returned count when no positive offset was supplied, and -1
when a positive offset yielded no items; when the returned count equals the
limit the total stays -1. -/
theorem claim_C3_total_deduction (rm : String → String → Bool)
    (ctx0 ctxLoop : Option CtxErr) (store : List MDoc) (q : Query)
    (l : ItemList) (hlim : ¬q.window.map Window.limit = some 0)
    (h : findModel rm ctx0 ctxLoop store q = .ok l) :
    ((windowLimit q < 0 ∨ (l.items.length : Int) < windowLimit q) →
      (offsetSupplied q → 0 < l.items.length →
        l.total = windowOffset q + l.items.length) ∧
      (offsetSupplied q → l.items.length = 0 → l.total = -1) ∧
      (¬offsetSupplied q → l.total = (l.items.length : Int))) ∧
    (0 ≤ windowLimit q → (l.items.length : Int) = windowLimit q →
      l.total = -1) := by
  have hcond : (q.window.map Window.limit == some 0) = false := by
    simpa using hlim
  simp only [findModel, hcond, Bool.false_eq_true, if_false] at h
  cases htr : getQuery q with
  | error er => rw [htr] at h; cases h
  | ok qry =>
    rw [htr] at h
    cases ctx0 with
    | some e => cases h
    | none =>
      have key : l.total = deduceTotal q.window (windowLimit q)
            (execFind rm store qry (getSort q) q.window).length ∧
          l.items.length = (execFind rm store qry (getSort q) q.window).length := by
        cases hcl : ctxLoop with
        | some e =>
          rw [hcl] at h
          by_cases hd : (execFind rm store qry (getSort q) q.window).length > 0
          · simp only [hd, if_true] at h
            cases h
          · simp only [hd, if_false] at h
            cases h
            exact ⟨rfl, by simp [windowLimit]⟩
        | none =>
          rw [hcl] at h
          cases h
          exact ⟨rfl, by simp [windowLimit]⟩
      obtain ⟨ht, hn⟩ := key
      rw [ht, hn]
      have hspec := deduceTotal_spec q.window (windowLimit q)
        (execFind rm store qry (getSort q) q.window).length
      constructor
      · intro hc
        obtain ⟨h1, h2, h3⟩ := hspec.1 hc
        exact ⟨fun ho hpos => by rw [h1 ho hpos]; rfl,
          fun ho hz => h2 ho hz, fun ho => h3 ho⟩
      · exact hspec.2

/-- Witness for C3: the spec's scenario — `Limit=1, Offset=0` against a
predicate matching exactly 2 documents returns 1 item and total -1. -/
theorem claim_C3_witness :
    findModel rmNone none none storeN qWin01 =
      .ok { total := -1, limit := 1,
            items := [⟨.vStr "1", "e1", 0, [("name", .vStr "a"), ("id", .vStr "1")]⟩] } ∧
    (-1 : Int) = -1 := by
  have hfind : findModel rmNone none none storeN qWin01 =
      .ok { total := -1, limit := 1,
            items := [⟨.vStr "1", "e1", 0, [("name", .vStr "a"), ("id", .vStr "1")]⟩] } := rfl
  have h := claim_C3_total_deduction rmNone none none storeN qWin01
    { total := -1, limit := 1,
      items := [⟨.vStr "1", "e1", 0, [("name", .vStr "a"), ("id", .vStr "1")]⟩] }
    (by decide) hfind
  exact ⟨hfind, h.2 (by decide) (by decide)⟩

end RLMongo
